import Mathlib

/-!
Verification development for the MySQLPoolConnection repository
(ConnectionPool.h).  The pool state and its operations are embedded
shallowly: the `moodycamel::ConcurrentQueue<int> connectionQueue` becomes a
FIFO `List Int` (enqueue at the tail, dequeue at the head; `size_approx`
is exact in the sequential embedding), the `std::unordered_set<int> Indexes`
becomes a `Finset Int`, and the `std::vector<std::unique_ptr<SQLConnection>>
mySqlPtrList` becomes a `List SQLConn`.  The outcome of each physical
`connect()` attempt is an oracle `Nat → Bool` indexed by the slot position,
since connectivity is decided by the external MySQL server.
-/

/-- Modelled from the spec: `SQLConnection.h` is not part of the sources.
Section 6 of the spec describes the collaborator as exposing
`connect() → bool`, `close()`, `isValid() → bool` and `getId() → int`
(the slot's assigned id, or a sentinel negative value), and section 3 says
`isValid` reflects the last known connectivity state.  A slot is therefore a
stable integer `poolId` plus a `valid` flag; `connect` sets `valid` to the
attempt's outcome and `close` clears it. -/
structure SQLConn where
  poolId : Int
  valid : Bool
deriving Repr, DecidableEq

/-- Modelled from the spec: `SQLConnection::close()` marks the connection no
longer valid. -/
def SQLConn.closeConn (c : SQLConn) : SQLConn :=
  { c with valid := false }

/-- The pool state: the four data members of `class ConnectionPool`
(the `_pool_mutex` spin lock has no sequential content and is elided). -/
structure PoolState where
  hasActiveConnections : Bool
  Indexes : Finset Int
  connectionQueue : List Int
  mySqlPtrList : List SQLConn
deriving DecidableEq

/-- The default-constructed members of a fresh `ConnectionPool` object. -/
def initialState : PoolState :=
  { hasActiveConnections := false
    Indexes := ∅
    connectionQueue := []
    mySqlPtrList := [] }

/-- `ConnectionPool::ClosePoolConnections` (lines 186-199): set
`hasActiveConnections = false`, close every non-null valid slot, and replace
the queue and the index set by fresh empty ones. -/
def closePoolConnections (p : PoolState) : PoolState :=
  { hasActiveConnections := false
    mySqlPtrList := p.mySqlPtrList.map (fun c => if c.valid then c.closeConn else c)
    connectionQueue := []
    Indexes := ∅ }

/-- `ConnectionPool::OpenPoolConnections` (lines 170-184): calls
`ClosePoolConnections()` inside a try block and returns `true`; the embedded
close never throws, so the catch branch returning `false` is dead. -/
def openPoolConnections (p : PoolState) : Bool × PoolState :=
  (true, closePoolConnections p)

/-- `ConnectionPool::HasActiveConnections` (lines 105-108). -/
def hasActiveConnectionsFn (p : PoolState) : Bool :=
  p.hasActiveConnections

/-- `ConnectionPool::ReleaseConnecion` (lines 153-168), taking the released
connection's `getPoolId()` value: ids `> -1` are accepted (returning `true`);
if the id is not yet in `Indexes` it is enqueued and inserted, otherwise
nothing changes; a sentinel negative id is rejected with `false`. -/
def releaseConnecion (p : PoolState) (poolId : Int) : Bool × PoolState :=
  if poolId > -1 then
    if poolId ∈ p.Indexes then (true, p)
    else (true, { p with
      connectionQueue := p.connectionQueue ++ [poolId]
      Indexes := insert poolId p.Indexes })
  else (false, p)

/-- Outcome of the first iteration of `GetConnecion`: `inactive` is the
immediate `nullptr` return when `hasActiveConnections` is false (the
`PoolInactiveError` of the spec); `got ind` is a successful dequeue of a
valid index (the slot pointer `mySqlPtrList[ind].get()` is returned);
`badIndex` is a dequeued index failing `ind < mySqlPtrList.size()`, after
which the do-while exits with `success == true` and returns `nullptr`;
`pollEmpty` means the first `try_dequeue` failed and the code enters the
polling loop (embedded separately as `acquireLoop`). -/
inductive AcqResult
  | inactive
  | got (ind : Int)
  | badIndex
  | pollEmpty
deriving Repr, DecidableEq

/-- `ConnectionPool::GetConnecion` (lines 110-151), first iteration.  The
guard `if (!hasActiveConnections) return nullptr;` comes first; otherwise one
`try_dequeue` is attempted.  `ind < mySqlPtrList.size()` compares a C++ `int`
against a `size_t`, so a negative `ind` converts to a huge unsigned value and
fails the test; the embedding states this as `0 ≤ ind ∧ ind.toNat < length`.
On success `ind` is erased from `Indexes` (the `find`-then-`erase` pair) and
the slot is returned.  The unsigned `timeout` parameter does not affect the
first iteration (the `timeout < 0` warning branch is dead); it governs the
polling loop, embedded as `acquireLoop`. -/
def getConnecion (p : PoolState) (timeout : Nat) : AcqResult × PoolState :=
  if p.hasActiveConnections = false then (AcqResult.inactive, p)
  else
    match p.connectionQueue with
    | [] =>
        let _ := timeout
        (AcqResult.pollEmpty, p)
    | ind :: rest =>
        if 0 ≤ ind ∧ ind.toNat < p.mySqlPtrList.length then
          (AcqResult.got ind,
            { p with connectionQueue := rest, Indexes := p.Indexes.erase ind })
        else
          (AcqResult.badIndex, { p with connectionQueue := rest })

/-- The do-while polling loop of `GetConnecion` (lines 125-148), run from
iteration `n` with `fuel` remaining steps.  `deq n` is the outcome of the
`try_dequeue` at iteration `n` (the queue is shared with concurrent
releasers, so the successive outcomes are an oracle), `elapsed n` the
wall-clock seconds elapsed at iteration `n`
(`duration_cast<seconds>(now - begin)`), and `sz` the value of
`mySqlPtrList.size()`.  Result: `some (some ind)` is a successful return of
slot `ind`; `some none` is a `nullptr` return (time out, or a dequeued index
out of range ending the do-while); `none` means the loop is still polling
after `fuel` iterations. -/
def acquireLoop (timeout : Nat) (deq : Nat → Option Int) (elapsed : Nat → Nat)
    (sz : Nat) : Nat → Nat → Option (Option Int)
  | _, 0 => none
  | n, fuel + 1 =>
    match deq n with
    | some ind =>
        if 0 ≤ ind ∧ ind.toNat < sz then some (some ind)
        else if 0 < timeout ∧ timeout ≤ elapsed n then some none
        else some none
    | none =>
        if 0 < timeout ∧ timeout ≤ elapsed n then some none
        else acquireLoop timeout deq elapsed sz (n + 1) fuel

/-- One iteration of the constructor loop body (lines 64-82) starting at
index `i` with `fuel` iterations left and `succ` the current value of the
local `success`: a new `SQLConnection(server, port, user, password,
database, i)` is appended (Modelled from the spec: the constructor of the
missing `SQLConnection.h` assigns slot id `i`), `connect()` is attempted
(outcome `ok i`), and either the id is enqueued and inserted or
`ClosePoolConnections()` runs and `std::runtime_error` is thrown (the
`Except.error` carries the pool state at the throw). -/
def constructIter (ok : Nat → Bool) :
    Nat → Nat → PoolState → Bool → Except PoolState (PoolState × Bool)
  | _, 0, p, succ => Except.ok (p, succ)
  | i, fuel + 1, p, _ =>
    let conn : SQLConn := { poolId := (i : Int), valid := ok i }
    let p1 := { p with mySqlPtrList := p.mySqlPtrList ++ [conn] }
    if ok i then
      constructIter ok (i + 1) fuel
        { p1 with
          connectionQueue := p1.connectionQueue ++ [(i : Int)]
          Indexes := insert ((i : Int)) p1.Indexes }
        true
    else
      Except.error (closePoolConnections p1)

/-- `ConnectionPool::ConnectionPool` (lines 50-98).  An empty `server` or
`user` throws `std::invalid_argument` before any member is touched.
Otherwise the loop of `constructIter` runs for `numConnection` iterations
from the default-constructed members; after it, `hasActiveConnections` is
set to `true` exactly when `success && count > 0 &&
count == connectionQueue.size_approx()`.  A `runtime_error` thrown in the
loop is caught at line 92, `ClosePoolConnections()` runs once more, and the
exception is rethrown: the error value is the pool state the throwing
object died in (the `ConnectionSetupError` of the spec). -/
def connectionPool (serverEmpty userEmpty : Bool) (numConnection : Nat)
    (ok : Nat → Bool) : Except PoolState PoolState :=
  if serverEmpty || userEmpty then Except.error initialState
  else
    match constructIter ok 0 numConnection initialState false with
    | Except.error p => Except.error (closePoolConnections p)
    | Except.ok (p, succ) =>
        if succ ∧ 0 < p.mySqlPtrList.length ∧
            p.mySqlPtrList.length = p.connectionQueue.length then
          Except.ok { p with hasActiveConnections := true }
        else Except.ok p

/-- One iteration of the reset loop body (lines 205-224) over slot position
`i`: `connect()` is attempted on the slot (outcome `ok i`, updating its
`valid` flag per the spec's model of the collaborator); on success the
slot's `getPoolId()` is inserted into `Indexes` and enqueued; on failure
every valid slot in the whole list is closed, and the loop continues with
the next slot.  `succ` carries the local `success`, overwritten each
iteration. -/
def resetIter (ok : Nat → Bool) :
    Nat → Nat → PoolState → Bool → PoolState × Bool
  | _, 0, p, succ => (p, succ)
  | i, fuel + 1, p, _ =>
    match p.mySqlPtrList[i]? with
    | none => (p, ok i)
    | some c =>
        let c1 := { c with valid := ok i }
        let p1 := { p with mySqlPtrList := p.mySqlPtrList.set i c1 }
        let p2 :=
          if ok i then
            { p1 with
              Indexes := insert c1.poolId p1.Indexes
              connectionQueue := p1.connectionQueue ++ [c1.poolId] }
          else
            { p1 with mySqlPtrList :=
                p1.mySqlPtrList.map (fun d => if d.valid then d.closeConn else d) }
        resetIter ok (i + 1) fuel p2 (ok i)

/-- `ConnectionPool::ResetPoolConnections` (lines 201-229):
`ClosePoolConnections()` first, then the reconnect loop over every slot,
then `hasActiveConnections = true` exactly when `success && count > 0 &&
count == connectionQueue.size_approx()`. -/
def resetPoolConnections (ok : Nat → Bool) (p0 : PoolState) : PoolState :=
  let p1 := closePoolConnections p0
  let r := resetIter ok 0 p1.mySqlPtrList.length p1 false
  if r.1.mySqlPtrList.length ≠ 0 ∧ r.2 ∧
      r.1.mySqlPtrList.length = r.1.connectionQueue.length then
    { r.1 with hasActiveConnections := true }
  else r.1

/-- The slot ids `{0..N-1}` of a pool of size `N`, as a set of C++ ints. -/
def idRange (N : Nat) : Finset Int :=
  (Finset.range N).image (fun i : Nat => (i : Int))

/-- Pool state instrumented with the ghost set of checked-out slot ids:
an id a caller received from `GetConnecion` and has not yet passed back to
`ReleaseConnecion`. -/
structure TState where
  pool : PoolState
  checkedOut : Finset Int
deriving DecidableEq

/-- One protocol step on a pool: either some caller's `GetConnecion`
succeeds (its returned id joins the checked-out set), or some caller
releases one of the pool's own slots (the id leaves the checked-out set). -/
inductive PoolStep : TState → TState → Prop
  | acquire (s : TState) (t : Nat) (ind : Int) (q : PoolState) :
      getConnecion s.pool t = (AcqResult.got ind, q) →
      PoolStep s ⟨q, insert ind s.checkedOut⟩
  | release (s : TState) (c : SQLConn) :
      c ∈ s.pool.mySqlPtrList →
      PoolStep s ⟨(releaseConnecion s.pool c.poolId).2, s.checkedOut.erase c.poolId⟩

/-- Reachability by any finite sequence of acquire and release steps. -/
def PoolReach : TState → TState → Prop :=
  Relation.ReflTransGen PoolStep

/-! Helper lemmas shared by several claim theorems. -/

theorem closePool_hasActive (p : PoolState) :
    (closePoolConnections p).hasActiveConnections = false := rfl

theorem closePool_Indexes (p : PoolState) :
    (closePoolConnections p).Indexes = ∅ := rfl

theorem closePool_queue (p : PoolState) :
    (closePoolConnections p).connectionQueue = [] := rfl

theorem closePool_valid_false (p : PoolState) :
    ∀ c ∈ (closePoolConnections p).mySqlPtrList, c.valid = false := by
  intro c hc
  simp only [closePoolConnections, List.mem_map] at hc
  obtain ⟨d, _, hd⟩ := hc
  cases hv : d.valid <;> simp [hv, SQLConn.closeConn] at hd <;> subst hd
  · simp [hv]
  · simp [SQLConn.closeConn]

theorem closePool_poolIds (p : PoolState) :
    (closePoolConnections p).mySqlPtrList.map SQLConn.poolId =
      p.mySqlPtrList.map SQLConn.poolId := by
  simp only [closePoolConnections, List.map_map]
  apply List.map_congr_left
  intro c _
  cases hv : c.valid <;> simp [hv, SQLConn.closeConn]

theorem closePool_length (p : PoolState) :
    (closePoolConnections p).mySqlPtrList.length = p.mySqlPtrList.length := by
  simp [closePoolConnections]

theorem closePool_idem (p : PoolState) :
    closePoolConnections (closePoolConnections p) = closePoolConnections p := by
  simp only [closePoolConnections, List.map_map, PoolState.mk.injEq, true_and,
    and_true]
  apply List.map_congr_left
  intro c _
  cases hv : c.valid <;> simp [hv, SQLConn.closeConn]

theorem getConnecion_of_inactive (p : PoolState) (t : Nat)
    (h : p.hasActiveConnections = false) :
    getConnecion p t = (AcqResult.inactive, p) := by
  simp [getConnecion, h]

/-- A concrete active pool state: exactly the state a successful
construction with `numConnection = 2` produces (used as a test input). -/
def samplePool : PoolState :=
  { hasActiveConnections := true
    Indexes := {0, 1}
    connectionQueue := [0, 1]
    mySqlPtrList := [⟨0, true⟩, ⟨1, true⟩] }

/-- C9: `ClosePoolConnections` leaves the free set empty, the queue empty
and `hasActiveConnections` false; the slot objects survive (same count,
same pool ids); and closing an already-closed pool changes nothing. -/
theorem close_clears_and_idempotent (p : PoolState) :
    (closePoolConnections p).Indexes = ∅ ∧
    (closePoolConnections p).connectionQueue = [] ∧
    (closePoolConnections p).hasActiveConnections = false ∧
    (closePoolConnections p).mySqlPtrList.length = p.mySqlPtrList.length ∧
    (closePoolConnections p).mySqlPtrList.map SQLConn.poolId =
      p.mySqlPtrList.map SQLConn.poolId ∧
    closePoolConnections (closePoolConnections p) = closePoolConnections p :=
  ⟨closePool_Indexes p, closePool_queue p, closePool_hasActive p,
   closePool_length p, closePool_poolIds p, closePool_idem p⟩

/-- C10: `OpenPoolConnections`, despite its name, opens nothing: it behaves
exactly as `ClosePoolConnections` (every slot connection closed, free set
emptied, `hasActiveConnections` false) and returns `true`. -/
theorem open_behaves_as_close (p : PoolState) :
    openPoolConnections p = (true, closePoolConnections p) ∧
    (openPoolConnections p).2.hasActiveConnections = false ∧
    (openPoolConnections p).2.Indexes = ∅ ∧
    ∀ c ∈ (openPoolConnections p).2.mySqlPtrList, c.valid = false :=
  ⟨rfl, closePool_hasActive p, closePool_Indexes p, closePool_valid_false p⟩

/-- C6: on a pool whose `hasActiveConnections` is false, `GetConnecion`
fails immediately with the pool-inactive result for every timeout value,
leaving the whole state (in particular the free set) unmodified. -/
theorem acquire_inactive_immediate_failure (p : PoolState) (t : Nat)
    (h : hasActiveConnectionsFn p = false) :
    getConnecion p t = (AcqResult.inactive, p) :=
  getConnecion_of_inactive p t h

/-- Witness for C6 at the freshly constructed (inactive) pool object. -/
theorem acquire_inactive_immediate_failure_witness :
    hasActiveConnectionsFn initialState = false ∧
    getConnecion initialState 7 = (AcqResult.inactive, initialState) :=
  ⟨rfl, acquire_inactive_immediate_failure initialState 7 rfl⟩

/-- C3 counterexample: on the closed pool `closePoolConnections samplePool`,
`GetConnecion` with timeout 0 returns the pool-inactive failure at once and
does not poll — contradicting the claim that it does not return a failure
result after `Close()`. -/
theorem acquire_after_close_returns_failure :
    getConnecion (closePoolConnections samplePool) 0 =
      (AcqResult.inactive, closePoolConnections samplePool) := by
  apply getConnecion_of_inactive
  rfl

/-- C3 amended: after `ClosePoolConnections`, `GetConnecion` with any
timeout (0 included) immediately returns the pool-inactive failure with the
state unchanged, because `hasActiveConnections` is false; it never reaches
the polling loop, so it cannot block until a Reset or Release. -/
theorem acquire_after_close_immediate_inactive (p : PoolState) (t : Nat) :
    getConnecion (closePoolConnections p) t =
      (AcqResult.inactive, closePoolConnections p) :=
  getConnecion_of_inactive _ t (closePool_hasActive p)

/-- C7: `ReleaseConnecion` is idempotent for a valid (non-negative) id.
Under the queue-matches-set invariant (the id occurs in the queue once if
it is marked free and never otherwise), releasing an id that is already
free is a no-op returning `true`; after one release the id is free, a
second release changes nothing, and the queue holds the id exactly once. -/
theorem release_idempotent (p : PoolState) (pid : Int) (hpid : pid > -1)
    (hcount : p.connectionQueue.count pid = if pid ∈ p.Indexes then 1 else 0) :
    (pid ∈ p.Indexes → releaseConnecion p pid = (true, p)) ∧
    (releaseConnecion p pid).1 = true ∧
    releaseConnecion (releaseConnecion p pid).2 pid =
      (true, (releaseConnecion p pid).2) ∧
    pid ∈ ((releaseConnecion p pid).2).Indexes ∧
    ((releaseConnecion p pid).2).connectionQueue.count pid = 1 := by
  by_cases hmem : pid ∈ p.Indexes
  · have h1 : releaseConnecion p pid = (true, p) := by
      simp [releaseConnecion, hpid, hmem]
    rw [h1]
    refine ⟨fun _ => rfl, rfl, h1, hmem, ?_⟩
    simpa [hmem] using hcount
  · have h1 : releaseConnecion p pid = (true, { p with
        connectionQueue := p.connectionQueue ++ [pid]
        Indexes := insert pid p.Indexes }) := by
      simp [releaseConnecion, hpid, hmem]
    rw [h1]
    have hmem2 : pid ∈ insert pid p.Indexes := Finset.mem_insert_self pid p.Indexes
    refine ⟨fun h => absurd h hmem, rfl, ?_, hmem2, ?_⟩
    · simp [releaseConnecion, hpid, hmem2]
    · simp only [hmem, if_false] at hcount
      simp [List.count_append, hcount]

/-- Witness for C7: releasing id 0 of the two-slot sample pool, where id 0
is already free, twice in a row. -/
theorem release_idempotent_witness :
    (0 : Int) > -1 ∧
    samplePool.connectionQueue.count 0 =
      (if (0 : Int) ∈ samplePool.Indexes then 1 else 0) ∧
    ((0 : Int) ∈ samplePool.Indexes →
      releaseConnecion samplePool 0 = (true, samplePool)) ∧
    ((releaseConnecion samplePool 0).2).connectionQueue.count 0 = 1 := by
  have h := release_idempotent samplePool 0 (by decide) (by decide)
  exact ⟨by decide, by decide, h.1, h.2.2.2.2⟩

theorem acquireLoop_reaches_timeout (T : Nat) (deq : Nat → Option Int)
    (elapsed : Nat → Nat) (sz : Nat) (hT : 0 < T)
    (hdeq : ∀ n, deq n = none) :
    ∀ (fuel n : Nat), (∃ j, j < fuel ∧ T ≤ elapsed (n + j)) →
      acquireLoop T deq elapsed sz n fuel = some none := by
  intro fuel
  induction fuel with
  | zero =>
    intro n h
    obtain ⟨j, hj, _⟩ := h
    omega
  | succ fuel ih =>
    intro n h
    obtain ⟨j, hj, hel⟩ := h
    rw [acquireLoop, hdeq n]
    by_cases hn : T ≤ elapsed n
    · simp [hT, hn]
    · have hj0 : j ≠ 0 := by
        intro h0
        subst h0
        simp at hel
        exact hn hel
      have : ¬ (0 < T ∧ T ≤ elapsed n) := fun hc => hn hc.2
      simp only [this, if_false]
      refine ih (n + 1) ⟨j - 1, by omega, ?_⟩
      have : n + 1 + (j - 1) = n + j := by omega
      rw [this]
      exact hel

theorem acquireLoop_no_return_before (T : Nat) (deq : Nat → Option Int)
    (elapsed : Nat → Nat) (sz : Nat)
    (hdeq : ∀ n, deq n = none) (hlt : ∀ m, elapsed m < T) :
    ∀ (fuel n : Nat), acquireLoop T deq elapsed sz n fuel = none := by
  intro fuel
  induction fuel with
  | zero => intro n; rfl
  | succ fuel ih =>
    intro n
    rw [acquireLoop, hdeq n]
    have : ¬ (0 < T ∧ T ≤ elapsed n) := fun hc => absurd (hlt n) (by omega)
    simp only [this, if_false]
    exact ih (n + 1)

theorem acquireLoop_zero_no_return (deq : Nat → Option Int)
    (elapsed : Nat → Nat) (sz : Nat) (hdeq : ∀ n, deq n = none) :
    ∀ (fuel n : Nat), acquireLoop 0 deq elapsed sz n fuel = none := by
  intro fuel
  induction fuel with
  | zero => intro n; rfl
  | succ fuel ih =>
    intro n
    rw [acquireLoop, hdeq n]
    simp only [Nat.lt_irrefl, false_and, if_false]
    exact ih (n + 1)

/-- C8: in the `GetConnecion` polling loop, if no slot id ever becomes free
(`try_dequeue` always fails), then with a timeout `T > 0` the loop returns
the nullptr failure within `k + 1` iterations once the elapsed seconds at
some iteration `k` reach `T`, and it never returns while the elapsed
seconds stay below `T`; with timeout `0` the loop never returns at all,
whatever fuel it is given. -/
theorem acquire_polling_timeout (deq : Nat → Option Int)
    (elapsed : Nat → Nat) (sz T : Nat) (hdeq : ∀ n, deq n = none) :
    (0 < T → ∀ k, T ≤ elapsed k →
      acquireLoop T deq elapsed sz 0 (k + 1) = some none) ∧
    ((∀ m, elapsed m < T) →
      ∀ n fuel, acquireLoop T deq elapsed sz n fuel = none) ∧
    (∀ n fuel, acquireLoop 0 deq elapsed sz n fuel = none) := by
  refine ⟨fun hT k hk => ?_, fun hlt n fuel => ?_, fun n fuel => ?_⟩
  · exact acquireLoop_reaches_timeout T deq elapsed sz hT hdeq (k + 1) 0
      ⟨k, Nat.lt_succ_self k, by simpa using hk⟩
  · exact acquireLoop_no_return_before T deq elapsed sz hdeq hlt fuel n
  · exact acquireLoop_zero_no_return deq elapsed sz hdeq fuel n

/-- Witness for C8: with a one-second-per-iteration clock and an always
empty queue,
timeout 2 returns the failure within 3 iterations, while timeout 0 is still
polling after 5 iterations. -/
theorem acquire_polling_timeout_witness :
    acquireLoop 2 (fun _ => none) (fun n => n) 1 0 3 = some none ∧
    acquireLoop 0 (fun _ => none) (fun n => n) 1 0 5 = none := by
  have h := acquire_polling_timeout (fun _ => none) (fun n => n) 1 2
    (fun _ => rfl)
  exact ⟨h.1 (by decide) 2 (by decide), h.2.2 0 5⟩

theorem constructIter_err (ok : Nat → Bool) :
    ∀ (fuel i : Nat) (p : PoolState) (succ : Bool),
      (∃ j, j < fuel ∧ ok (i + j) = false) →
      ∃ q, constructIter ok i fuel p succ = Except.error q ∧
        q.hasActiveConnections = false ∧ q.Indexes = ∅ ∧
        q.connectionQueue = [] ∧ ∀ c ∈ q.mySqlPtrList, c.valid = false := by
  intro fuel
  induction fuel with
  | zero =>
    intro i p succ h
    obtain ⟨j, hj, _⟩ := h
    omega
  | succ fuel ih =>
    intro i p succ h
    obtain ⟨j, hj, hjf⟩ := h
    cases h0 : ok i with
    | false =>
      rw [constructIter]
      simp only [h0, Bool.false_eq_true, if_false]
      exact ⟨_, rfl, closePool_hasActive _, closePool_Indexes _,
        closePool_queue _, closePool_valid_false _⟩
    | true =>
      have hj0 : j ≠ 0 := by
        intro he
        subst he
        simp only [Nat.add_zero, h0] at hjf
        exact absurd hjf (by decide)
      rw [constructIter]
      simp only [h0, if_true]
      exact ih (i + 1) _ true ⟨j - 1, by omega, by
        have : i + 1 + (j - 1) = i + j := by omega
        rw [this]
        exact hjf⟩

theorem constructIter_all_ok (ok : Nat → Bool) :
    ∀ (fuel i : Nat) (p : PoolState) (succ : Bool),
      (∀ j, i ≤ j → j < i + fuel → ok j = true) →
      ∃ q b, constructIter ok i fuel p succ = Except.ok (q, b) ∧
        q.hasActiveConnections = p.hasActiveConnections ∧
        q.mySqlPtrList = p.mySqlPtrList ++
          (List.range' i fuel).map (fun j => ⟨(j : Int), true⟩) ∧
        q.connectionQueue = p.connectionQueue ++
          (List.range' i fuel).map (fun j => ((j : Nat) : Int)) ∧
        (∀ x : Int, x ∈ q.Indexes ↔ x ∈ p.Indexes ∨
          x ∈ (List.range' i fuel).map (fun j => ((j : Nat) : Int))) ∧
        b = (if fuel = 0 then succ else true) := by
  intro fuel
  induction fuel with
  | zero =>
    intro i p succ h
    exact ⟨p, succ, rfl, rfl, by simp, by simp, by simp, by simp⟩
  | succ fuel ih =>
    intro i p succ h
    have h0 : ok i = true := h i (Nat.le_refl i) (by omega)
    rw [constructIter]
    simp only [h0, if_true]
    obtain ⟨q, b, heq, hflag, hlist, hqueue, hidx, hb⟩ :=
      ih (i + 1)
        { hasActiveConnections := p.hasActiveConnections
          Indexes := insert ((i : Nat) : Int) p.Indexes
          connectionQueue := p.connectionQueue ++ [((i : Nat) : Int)]
          mySqlPtrList := p.mySqlPtrList ++ [⟨((i : Nat) : Int), true⟩] }
        true
        (fun j hj1 hj2 => h j (by omega) (by omega))
    refine ⟨q, b, heq, hflag, ?_, ?_, ?_, ?_⟩
    · rw [hlist, List.range'_succ, List.map_cons]
      simp [h0, List.append_assoc]
    · rw [hqueue, List.range'_succ, List.map_cons]
      simp [List.append_assoc]
    · intro x
      rw [hidx x, List.range'_succ, List.map_cons]
      simp only [Finset.mem_insert, List.mem_cons]
      tauto
    · rw [hb]
      simp

theorem connectionPool_ok_char (N : Nat) (ok : Nat → Bool) (p : PoolState)
    (h : connectionPool false false N ok = Except.ok p) :
    (∀ i, i < N → ok i = true) ∧
    p.mySqlPtrList = (List.range N).map (fun j => ⟨(j : Int), true⟩) ∧
    p.connectionQueue = (List.range N).map (fun j => ((j : Nat) : Int)) ∧
    (∀ x : Int, x ∈ p.Indexes ↔ ∃ j, j < N ∧ x = ((j : Nat) : Int)) ∧
    (p.hasActiveConnections = true ↔ 0 < N) := by
  have hallok : ∀ i, i < N → ok i = true := by
    by_contra hno
    push_neg at hno
    obtain ⟨i, hi, hnt⟩ := hno
    have hif : ok i = false := by
      cases hoi : ok i
      · rfl
      · exact absurd hoi hnt
    obtain ⟨q, heq, _⟩ :=
      constructIter_err ok N 0 initialState false ⟨i, hi, by simpa using hif⟩
    rw [connectionPool] at h
    simp only [Bool.or_self, Bool.false_eq_true, if_false] at h
    rw [heq] at h
    exact absurd h (by simp)
  obtain ⟨q, b, heq, hflag, hlist, hqueue, hidx, hb⟩ :=
    constructIter_all_ok ok N 0 initialState false
      (fun j _ hj2 => hallok j (by omega))
  have hlist2 : q.mySqlPtrList = (List.range N).map (fun j => ⟨(j : Int), true⟩) := by
    rw [hlist, List.range_eq_range']
    simp [initialState]
  have hqueue2 : q.connectionQueue = (List.range N).map (fun j => ((j : Nat) : Int)) := by
    rw [hqueue, List.range_eq_range']
    simp [initialState]
  have hidx2 : ∀ x : Int, x ∈ q.Indexes ↔ ∃ j, j < N ∧ x = ((j : Nat) : Int) := by
    intro x
    rw [hidx x]
    simp [initialState, List.mem_range', eq_comm]
  have hflag2 : q.hasActiveConnections = false := by
    rw [hflag]; rfl
  have hlen : q.mySqlPtrList.length = N := by
    rw [hlist2]; simp
  have hqlen : q.connectionQueue.length = N := by
    rw [hqueue2]; simp
  rw [connectionPool] at h
  simp only [Bool.or_self, Bool.false_eq_true, if_false] at h
  rw [heq] at h
  rcases Nat.eq_zero_or_pos N with hN | hN
  · subst hN
    have hbv : b = false := by rw [hb]; rfl
    subst hbv
    simp only [Bool.false_eq_true, false_and, if_false] at h
    have hp : q = p := by
      simpa using h
    subst hp
    refine ⟨hallok, hlist2, hqueue2, hidx2, ?_⟩
    rw [hflag2]
    simp
  · have hbv : b = true := by
      rw [hb]
      simp [Nat.pos_iff_ne_zero.mp hN]
    subst hbv
    have hcond : (true = true ∧ 0 < q.mySqlPtrList.length ∧
        q.mySqlPtrList.length = q.connectionQueue.length) := by
      refine ⟨rfl, ?_, ?_⟩
      · rw [hlen]; exact hN
      · rw [hlen, hqlen]
    have h2 : (if (true = true ∧ 0 < q.mySqlPtrList.length ∧
        q.mySqlPtrList.length = q.connectionQueue.length) then
          Except.ok (PoolState.mk true q.Indexes q.connectionQueue q.mySqlPtrList)
        else Except.ok q) = Except.ok p := h
    rw [if_pos hcond] at h2
    have hp : PoolState.mk true q.Indexes q.connectionQueue q.mySqlPtrList = p := by
      simpa using h2
    subst hp
    exact ⟨hallok, hlist2, hqueue2, hidx2, by simpa using hN⟩

/-- C4: whenever some connection attempt fails during construction, the
constructor propagates the setup error (the `Except.error` of the embedded
constructor, i.e. the rethrown `runtime_error`), and the pool object it
leaves behind has every slot created so far closed, an empty free set, an
empty queue, `hasActiveConnections` false, and is unusable: every
`GetConnecion` call fails immediately with the pool-inactive result. -/
theorem construction_failure_atomic (N : Nat) (ok : Nat → Bool)
    (hfail : ∃ i, i < N ∧ ok i = false) :
    ∃ p, connectionPool false false N ok = Except.error p ∧
      hasActiveConnectionsFn p = false ∧ p.Indexes = ∅ ∧
      p.connectionQueue = [] ∧ (∀ c ∈ p.mySqlPtrList, c.valid = false) ∧
      ∀ t, getConnecion p t = (AcqResult.inactive, p) := by
  obtain ⟨i, hi, hif⟩ := hfail
  obtain ⟨q, heq, hfl, _, _, _⟩ :=
    constructIter_err ok N 0 initialState false ⟨i, hi, by simpa using hif⟩
  refine ⟨closePoolConnections q, ?_, closePool_hasActive q,
    closePool_Indexes q, closePool_queue q, closePool_valid_false q,
    fun t => getConnecion_of_inactive _ t (closePool_hasActive q)⟩
  rw [connectionPool]
  simp only [Bool.or_self, Bool.false_eq_true, if_false]
  rw [heq]

/-- Witness for C4: the spec scenario with `N = 2` where the second connect
attempt fails. -/
theorem construction_failure_atomic_witness :
    (∃ i, i < 2 ∧ (fun i : Nat => i == 0) i = false) ∧
    ∃ p, connectionPool false false 2 (fun i : Nat => i == 0) =
        Except.error p ∧
      hasActiveConnectionsFn p = false ∧ p.Indexes = ∅ ∧
      p.connectionQueue = [] ∧ (∀ c ∈ p.mySqlPtrList, c.valid = false) ∧
      ∀ t, getConnecion p t = (AcqResult.inactive, p) :=
  ⟨⟨1, by decide⟩, construction_failure_atomic 2 (fun i => i == 0) ⟨1, by decide⟩⟩

/-- C5: when every one of the `N ≥ 1` connection attempts succeeds, the
constructor returns a pool whose free set is exactly the ids `0..N-1`
(`N` distinct ids, `card = N`) with `HasActiveConnections()` true; and in
any successfully constructed pool, `hasActiveConnections` is true only if
`N > 0` and the number of free ids equals `N`. -/
theorem construction_success_all_free (N : Nat) (ok : Nat → Bool) :
    (1 ≤ N → (∀ i, i < N → ok i = true) →
      ∃ p, connectionPool false false N ok = Except.ok p ∧
        p.Indexes = idRange N ∧ p.Indexes.card = N ∧
        hasActiveConnectionsFn p = true) ∧
    (∀ p, connectionPool false false N ok = Except.ok p →
      hasActiveConnectionsFn p = true → 0 < N ∧ p.Indexes.card = N) := by
  have hcard : (idRange N).card = N := by
    rw [idRange,
      Finset.card_image_of_injective _ (fun a b h => by exact_mod_cast h),
      Finset.card_range]
  have hmem : ∀ (p : PoolState),
      (∀ x : Int, x ∈ p.Indexes ↔ ∃ j, j < N ∧ x = ((j : Nat) : Int)) →
      p.Indexes = idRange N := by
    intro p hp
    ext x
    rw [hp x, idRange]
    simp [eq_comm]
  constructor
  · intro hN hallok
    have hok : ∃ p, connectionPool false false N ok = Except.ok p := by
      obtain ⟨q, b, heq, -⟩ :=
        constructIter_all_ok ok N 0 initialState false
          (fun j _ hj2 => hallok j (by omega))
      have hred : connectionPool false false N ok =
          (if (b = true ∧ 0 < q.mySqlPtrList.length ∧
              q.mySqlPtrList.length = q.connectionQueue.length) then
            Except.ok (PoolState.mk true q.Indexes q.connectionQueue
              q.mySqlPtrList)
          else Except.ok q) := by
        rw [connectionPool]
        simp only [Bool.or_self, Bool.false_eq_true, if_false]
        rw [heq]
      rw [hred]
      by_cases hcond : (b = true ∧ 0 < q.mySqlPtrList.length ∧
          q.mySqlPtrList.length = q.connectionQueue.length)
      · exact ⟨_, if_pos hcond⟩
      · exact ⟨_, if_neg hcond⟩
    obtain ⟨p, hp⟩ := hok
    obtain ⟨_, _, _, hidx, hflag⟩ := connectionPool_ok_char N ok p hp
    exact ⟨p, hp, hmem p hidx, by rw [hmem p hidx, hcard],
      hflag.mpr (by omega)⟩
  · intro p hp hfl
    obtain ⟨_, _, _, hidx, hflag⟩ := connectionPool_ok_char N ok p hp
    have hN : 0 < N := hflag.mp hfl
    exact ⟨hN, by rw [hmem p hidx, hcard]⟩

/-- Witness for C5 at `N = 3` with every connect attempt succeeding. -/
theorem construction_success_all_free_witness :
    (1 ≤ 3 ∧ ∀ i, i < 3 → (fun _ : Nat => true) i = true) ∧
    (∃ p, connectionPool false false 3 (fun _ : Nat => true) = Except.ok p ∧
      p.Indexes = idRange 3 ∧ p.Indexes.card = 3 ∧
      hasActiveConnectionsFn p = true) :=
  ⟨⟨by decide, fun i _ => rfl⟩,
    (construction_success_all_free 3 (fun _ => true)).1 (by decide)
      (fun i _ => rfl)⟩

/-- C2 (evidence of the divergence): running `ResetPoolConnections` on the
active two-slot pool with a reconnect oracle where slot 0 fails and slot 1
succeeds leaves `hasActiveConnections` false as the claim says, but — against
the claim — id 1 stays in the free set (`Indexes` is not empty, the queue
still holds 1) and slot 1's connection is left open: the failure handler
closes the connections without clearing the free-set bookkeeping, and slots
after the failure still reconnect and are re-enqueued. -/
theorem reset_failure_leaves_state :
    (resetPoolConnections (fun i => i == 1) samplePool).hasActiveConnections
        = false ∧
    (1 : Int) ∈ (resetPoolConnections (fun i => i == 1) samplePool).Indexes ∧
    (resetPoolConnections (fun i => i == 1) samplePool).Indexes ≠ ∅ ∧
    (resetPoolConnections (fun i => i == 1) samplePool).connectionQueue
        = [1] ∧
    ∃ c ∈ (resetPoolConnections (fun i => i == 1) samplePool).mySqlPtrList,
      c.valid = true := by
  decide

/-- The inductive invariant tying the queue, the index set and the ghost
checked-out set together on a pool of size `N`. -/
def PoolInv (N : Nat) (s : TState) : Prop :=
  s.pool.mySqlPtrList.length = N ∧
  (∀ c ∈ s.pool.mySqlPtrList, 0 ≤ c.poolId ∧ c.poolId.toNat < N) ∧
  s.pool.connectionQueue.Nodup ∧
  (∀ x : Int, x ∈ s.pool.connectionQueue ↔ x ∈ s.pool.Indexes) ∧
  Disjoint s.checkedOut s.pool.Indexes ∧
  s.checkedOut ∪ s.pool.Indexes = idRange N

theorem getConnecion_got (p : PoolState) (t : Nat) (ind : Int) (q : PoolState)
    (h : getConnecion p t = (AcqResult.got ind, q)) :
    p.hasActiveConnections = true ∧
    ∃ rest, p.connectionQueue = ind :: rest ∧ 0 ≤ ind ∧
      ind.toNat < p.mySqlPtrList.length ∧
      q = { p with connectionQueue := rest, Indexes := p.Indexes.erase ind } := by
  rw [getConnecion] at h
  split at h
  · exact absurd h (by simp)
  next hfl =>
    have hfl2 : p.hasActiveConnections = true := by
      cases hb : p.hasActiveConnections
      · exact absurd hb hfl
      · rfl
    split at h
    · exact absurd h (by simp)
    next a rest heq =>
      split at h
      next hg =>
        simp only [Prod.mk.injEq, AcqResult.got.injEq] at h
        obtain ⟨rfl, hqe⟩ := h
        exact ⟨hfl2, rest, heq, hg.1, hg.2, hqe.symm⟩
      next hg => exact absurd h (by simp)

theorem inv_step (N : Nat) (s s2 : TState) (hinv : PoolInv N s)
    (hstep : PoolStep s s2) : PoolInv N s2 := by
  obtain ⟨hlen, hids, hnd, hmemq, hdisj, hunion⟩ := hinv
  cases hstep with
  | acquire t ind q hget =>
    obtain ⟨hfl, rest, hq, hind0, hindlt, hqe⟩ :=
      getConnecion_got s.pool t ind q hget
    subst hqe
    have hindq : ind ∈ s.pool.connectionQueue := by
      rw [hq]
      exact List.mem_cons_self ind rest
    have hindidx : ind ∈ s.pool.Indexes := (hmemq ind).mp hindq
    have hndc := List.nodup_cons.mp (hq ▸ hnd)
    refine ⟨hlen, hids, hndc.2, ?_, ?_, ?_⟩
    · intro x
      constructor
      · intro hx
        refine Finset.mem_erase.mpr ⟨?_, (hmemq x).mp ?_⟩
        · intro hxi
          subst hxi
          exact hndc.1 hx
        · rw [hq]
          exact List.mem_cons_of_mem _ hx
      · intro hx
        obtain ⟨hne, hxi⟩ := Finset.mem_erase.mp hx
        have hxq := (hmemq x).mpr hxi
        rw [hq] at hxq
        cases List.mem_cons.mp hxq with
        | inl he => exact absurd he hne
        | inr hm => exact hm
    · rw [Finset.disjoint_left]
      intro x hx hxe
      obtain ⟨hne, hxi⟩ := Finset.mem_erase.mp hxe
      cases Finset.mem_insert.mp hx with
      | inl he => exact hne he
      | inr hco => exact (Finset.disjoint_left.mp hdisj hco) hxi
    · have hu : insert ind s.checkedOut ∪ s.pool.Indexes.erase ind =
          s.checkedOut ∪ s.pool.Indexes := by
        ext x
        simp only [Finset.mem_union, Finset.mem_insert, Finset.mem_erase]
        by_cases hxe : x = ind
        · subst hxe
          simp [hindidx]
        · simp [hxe]
      rw [hu, hunion]
  | release c hc =>
    have hcid := hids c hc
    have hgt : c.poolId > -1 := by omega
    by_cases hmem : c.poolId ∈ s.pool.Indexes
    · have hrel : (releaseConnecion s.pool c.poolId).2 = s.pool := by
        simp [releaseConnecion, hgt, hmem]
      have hnotco : c.poolId ∉ s.checkedOut :=
        Finset.disjoint_right.mp hdisj hmem
      have herase : s.checkedOut.erase c.poolId = s.checkedOut :=
        Finset.erase_eq_of_not_mem hnotco
      rw [hrel, herase]
      exact ⟨hlen, hids, hnd, hmemq, hdisj, hunion⟩
    · have hrel : (releaseConnecion s.pool c.poolId).2 = { s.pool with
          connectionQueue := s.pool.connectionQueue ++ [c.poolId]
          Indexes := insert c.poolId s.pool.Indexes } := by
        simp [releaseConnecion, hgt, hmem]
      rw [hrel]
      have hninq : c.poolId ∉ s.pool.connectionQueue :=
        fun hqm => hmem ((hmemq _).mp hqm)
      have hinco : c.poolId ∈ s.checkedOut := by
        have hir : c.poolId ∈ idRange N := by
          rw [idRange]
          simp only [Finset.mem_image, Finset.mem_range]
          exact ⟨c.poolId.toNat, hcid.2, by omega⟩
        rw [← hunion] at hir
        cases Finset.mem_union.mp hir with
        | inl hco => exact hco
        | inr hidx => exact absurd hidx hmem
      refine ⟨hlen, hids, ?_, ?_, ?_, ?_⟩
      · rw [List.nodup_append]
        refine ⟨hnd, List.nodup_singleton _, ?_⟩
        intro a ha hb
        simp only [List.mem_singleton] at hb
        subst hb
        exact hninq ha
      · intro x
        simp only [List.mem_append, List.mem_singleton, Finset.mem_insert]
        rw [hmemq x]
        tauto
      · rw [Finset.disjoint_left]
        intro x hx hxi
        obtain ⟨hne, hxc⟩ := Finset.mem_erase.mp hx
        cases Finset.mem_insert.mp hxi with
        | inl he => exact hne he
        | inr hidx => exact (Finset.disjoint_left.mp hdisj hxc) hidx
      · have hu : s.checkedOut.erase c.poolId ∪
            insert c.poolId s.pool.Indexes =
            s.checkedOut ∪ s.pool.Indexes := by
          ext x
          simp only [Finset.mem_union, Finset.mem_erase, Finset.mem_insert]
          by_cases hxe : x = c.poolId
          · subst hxe
            simp [hinco]
          · simp [hxe]
        rw [hu, hunion]

theorem inv_reach (N : Nat) (s s2 : TState) (hinv : PoolInv N s)
    (h : PoolReach s s2) : PoolInv N s2 := by
  induction h with
  | refl => exact hinv
  | tail _ hbc ih => exact inv_step N _ _ ih hbc

theorem inv_init (N : Nat) (ok : Nat → Bool) (p0 : PoolState)
    (h : connectionPool false false N ok = Except.ok p0) :
    PoolInv N ⟨p0, ∅⟩ := by
  obtain ⟨hallok, hlist, hqueue, hidx, hflag⟩ := connectionPool_ok_char N ok p0 h
  refine ⟨?_, ?_, ?_, ?_, ?_, ?_⟩
  · rw [hlist]
    simp
  · intro c hc
    rw [hlist] at hc
    simp only [List.mem_map, List.mem_range] at hc
    obtain ⟨j, hj, rfl⟩ := hc
    refine ⟨?_, ?_⟩
    · show (0 : Int) ≤ (j : Int)
      omega
    · show ((j : Int)).toNat < N
      omega
  · rw [hqueue]
    exact List.Nodup.map (fun a b hab => by exact_mod_cast hab)
      (List.nodup_range N)
  · intro x
    rw [hqueue, hidx x]
    simp only [List.mem_map, List.mem_range]
    simp [eq_comm]
  · simp
  · rw [Finset.empty_union]
    ext x
    rw [hidx x, idRange]
    simp [eq_comm]

/-- C1: from any successfully constructed pool, along every finite sequence
of successful acquires and releases of the pool's own slots, the ghost
checked-out set and the free set `Indexes` stay disjoint with union exactly
the id range `{0..N-1}`; and any `GetConnecion` that succeeds from such a
reachable state hands out an id that is not currently checked out, so the
same id is never given to two callers without an intervening release. -/
theorem pool_partition_mutual_exclusion (N : Nat) (ok : Nat → Bool)
    (p0 : PoolState) (s : TState)
    (hcons : connectionPool false false N ok = Except.ok p0)
    (hreach : PoolReach ⟨p0, ∅⟩ s) :
    (Disjoint s.checkedOut s.pool.Indexes ∧
      s.checkedOut ∪ s.pool.Indexes = idRange N) ∧
    ∀ t ind q, getConnecion s.pool t = (AcqResult.got ind, q) →
      ind ∉ s.checkedOut := by
  obtain ⟨hlen, hids, hnd, hmemq, hdisj, hunion⟩ :=
    inv_reach N _ s (inv_init N ok p0 hcons) hreach
  refine ⟨⟨hdisj, hunion⟩, ?_⟩
  intro t ind q hget
  obtain ⟨hfl, rest, hq, _, _, _⟩ := getConnecion_got s.pool t ind q hget
  have hmem : ind ∈ s.pool.Indexes := (hmemq ind).mp (by
    rw [hq]
    exact List.mem_cons_self ind rest)
  exact Finset.disjoint_right.mp hdisj hmem

/-- Witness for C1 at a freshly constructed two-slot pool (the reachable
state after the empty sequence of operations). -/
theorem pool_partition_mutual_exclusion_witness :
    connectionPool false false 2 (fun _ : Nat => true) =
      Except.ok samplePool ∧
    ((Disjoint (∅ : Finset Int) samplePool.Indexes ∧
      (∅ : Finset Int) ∪ samplePool.Indexes = idRange 2) ∧
    ∀ t ind q, getConnecion samplePool t = (AcqResult.got ind, q) →
      ind ∉ (∅ : Finset Int)) := by
  have h1 : connectionPool false false 2 (fun _ : Nat => true) =
      Except.ok ⟨true, insert 1 (insert 0 ∅), [0, 1],
        [⟨0, true⟩, ⟨1, true⟩]⟩ := rfl
  have hcons : connectionPool false false 2 (fun _ : Nat => true) =
      Except.ok samplePool := by
    rw [h1]
    congr 1
    simp only [samplePool, PoolState.mk.injEq, and_true, true_and]
    decide
  exact ⟨hcons, pool_partition_mutual_exclusion 2 (fun _ => true) samplePool
    ⟨samplePool, ∅⟩ hcons Relation.ReflTransGen.refl⟩
